import Mathlib

/-!
Verification model of the stable-hypergrad repository's core:
the masked, shifted token-metrics engine (`loss`, `ppl`, `acc`, `pcorr`
from `src/utils/training_utils.py`) and the sphere-reparameterization pass
(`ball_forward`, `layer_forward`, `BallLmModel.post_init` from
`src/models/ball.py`).

Tensors are modelled as nested lists over a linearly ordered field:
a logits tensor `[B, T, V]` is `List (List (List α))`, a target tensor
`[B, T]` is `List (List Int)`.  The exponential is passed as an explicit
function argument where a metric needs it; theorems instantiate it at
`Real.exp`.

Python-level failure outcomes are made explicit with `Except MErr`:
`indexError` models a raised `IndexError` from the fancy-index gather,
`nameError` models the `NameError`/`UnboundLocalError` raised by `acc`
(which reads `mask` before assigning it), and `nan` marks an IEEE
`0.0/0.0` silently produced by a zero masked-token denominator.
-/

set_option linter.unusedSectionVars false

namespace StableHypergrad

/-- Outcomes of a metric call other than a plain value: a raised
`IndexError`, a raised `NameError`, or an IEEE NaN from `0.0/0.0`. -/
inductive MErr where
  | indexError : MErr
  | nan : MErr
  | nameError : MErr
deriving DecidableEq, Repr

instance {ε β : Type} [DecidableEq ε] [DecidableEq β] :
    DecidableEq (Except ε β) := fun a b =>
  match a, b with
  | .error a, .error b => decidable_of_iff (a = b) (by simp)
  | .error _, .ok _ => .isFalse (by simp)
  | .ok _, .error _ => .isFalse (by simp)
  | .ok a, .ok b => decidable_of_iff (a = b) (by simp)

/-- `[B, T, V]` logits tensor. -/
abbrev Tensor3 (α : Type) := List (List (List α))

/-- `[B, T]` integer target tensor. -/
abbrev Tensor2 := List (List Int)

/-- `logits = logits[:, :-1]` when `shift` is set: drop the last timestep
of every sequence. -/
def shiftLogits {α : Type} (shift : Bool) (logits : Tensor3 α) : Tensor3 α :=
  if shift then logits.map (fun s => s.dropLast) else logits

/-- `x = x[:, 1:]` when `shift` is set: drop the first timestep of every
sequence. -/
def shiftTargets (shift : Bool) (x : Tensor2) : Tensor2 :=
  if shift then x.map (fun s => s.drop 1) else x

/-- `x.view(-1)`: flatten the target tensor. -/
def flatT (x : Tensor2) : List Int :=
  x.flatten

/-- `logits.view(-1, logits.shape[-1])`: flatten the batch and time axes,
keeping vocabulary rows. -/
def flatL {α : Type} (logits : Tensor3 α) : List (List α) :=
  logits.flatten

/-- PyTorch integer indexing into one vocabulary row: a negative index
wraps from the end, an index outside `[-len, len)` raises `IndexError`
(modelled as `none`). -/
def pyIndex {α : Type} (row : List α) (i : Int) : Option α :=
  if 0 ≤ i then row[i.toNat]?
  else if -(row.length : Int) ≤ i then row[(i + row.length).toNat]?
  else none

/-- `logits[ar, x]` with `ar = arange(x.shape[0])`: pair row `i` of the
flattened logits with entry `i` of the flattened targets.  Running out of
logits rows before targets, or any per-row index failure, is an
`IndexError` (`none`). -/
def gather {α : Type} : List (List α) → List Int → Option (List α)
  | _, [] => some []
  | [], _ :: _ => none
  | row :: lf, t :: xf =>
    match pyIndex row t, gather lf xf with
    | some v, some rest => some (v :: rest)
    | _, _ => none

/-- `(~mask).sum()`: the number of non-padding entries of the flattened
target list. -/
def nonPadCount (xf : List Int) (ignore : Int) : Nat :=
  (xf.filter (fun t => !(t == ignore))).length

variable {α : Type} [LinearOrderedField α]

/-- `loss` from `src/utils/training_utils.py`: shift, flatten, gather the
target log-probabilities, negate, zero the padding positions, then divide
the flat mean of the masked values by the flat mean of the non-padding
indicator.  An all-padding (or empty) batch makes the denominator `0.0`
and the numerator `0.0`, i.e. an IEEE NaN. -/
def loss (logits : Tensor3 α) (x : Tensor2) (ignore : Int) (shift : Bool) :
    Except MErr α :=
  let xf := flatT (shiftTargets shift x)
  let lf := flatL (shiftLogits shift logits)
  match gather lf xf with
  | none => .error .indexError
  | some g =>
    let vals := (g.zip xf).map (fun p => if p.2 == ignore then 0 else -p.1)
    let n := xf.length
    let cnt := nonPadCount xf ignore
    if cnt = 0 then .error .nan
    else .ok ((vals.sum / (n : α)) / ((cnt : α) / (n : α)))

/-- `ppl` from `src/utils/training_utils.py`.  Note that `x.view(-1)` has
already flattened the batch axis, so the `logp.sum(-1)` of the source sums
over every position of the whole batch and `logp_seq` is a scalar: the
result is `exp` of the global flat mean of the negated masked
log-probabilities. -/
def ppl (exp : α → α) (logits : Tensor3 α) (x : Tensor2) (ignore : Int)
    (shift : Bool) : Except MErr α :=
  let xf := flatT (shiftTargets shift x)
  let lf := flatL (shiftLogits shift logits)
  match gather lf xf with
  | none => .error .indexError
  | some g =>
    let vals := (g.zip xf).map (fun p => if p.2 == ignore then 0 else p.1)
    let cnt := nonPadCount xf ignore
    if cnt = 0 then .error .nan
    else .ok (exp (-(vals.sum / (cnt : α))))

/-- Index of the first maximal entry of a vocabulary row
(`logits.argmax(-1)`). -/
def argmaxIdx (row : List α) : Nat :=
  match row with
  | [] => 0
  | h :: t =>
    (t.foldl
      (fun acc v =>
        if acc.2.1 < v then (acc.1 + 1, v, acc.1) else (acc.1 + 1, acc.2.1, acc.2.2))
      ((1 : Nat), h, (0 : Nat))).2.2

/-- `acc` from `src/utils/training_utils.py`.  The source computes
`logical_and(logits.argmax(-1) == x, ~mask)` and only afterwards assigns
`mask = x == ignore_index`; evaluating `~mask` therefore raises a
`NameError` (`UnboundLocalError`) on every call, after the argmax
comparison has been evaluated. -/
def acc (logits : Tensor3 α) (x : Tensor2) (_ignore : Int) (shift : Bool) :
    Except MErr α :=
  let x1 := shiftTargets shift x
  let l1 := shiftLogits shift logits
  let _corr := (l1.flatten.zip x1.flatten).map (fun p => ((argmaxIdx p.1 : Int) == p.2))
  .error .nameError

/-- `pcorr` from `src/utils/training_utils.py`: shift, flatten, gather,
exponentiate, zero the padding positions, and divide the sum by the number
of non-padding positions. -/
def pcorr (exp : α → α) (logits : Tensor3 α) (x : Tensor2) (ignore : Int)
    (shift : Bool) : Except MErr α :=
  let xf := flatT (shiftTargets shift x)
  let lf := flatL (shiftLogits shift logits)
  match gather lf xf with
  | none => .error .indexError
  | some g =>
    let vals := (g.zip xf).map (fun p => if p.2 == ignore then 0 else exp p.1)
    let cnt := nonPadCount xf ignore
    if cnt = 0 then .error .nan
    else .ok (vals.sum / (cnt : α))

/-- The spec's description of `loss`: the negative gathered
log-probabilities with padding zeroed, averaged as a single flat mean over
the non-padding positions of the whole batch. -/
def lossSpec (g : List α) (xf : List Int) (ignore : Int) : α :=
  (((g.zip xf).filter (fun p => !(p.2 == ignore))).map (fun p => -p.1)).sum /
    (nonPadCount xf ignore : α)

/-- The spec's description of `ppl`: per-sequence mean negative gathered
log-probability with masked tokens excluded from that sequence's
denominator, exponentiated per sequence, then averaged across the batch. -/
def pplSpec (exp : α → α) (logits : Tensor3 α) (x : Tensor2) (ignore : Int) : α :=
  let seqs := (shiftLogits true logits).zip (shiftTargets true x)
  let terms := seqs.map (fun s =>
    let g := (s.1.zip s.2).filterMap
      (fun p => if p.2 == ignore then none else pyIndex p.1 p.2)
    exp (-(g.sum / (g.length : α))))
  terms.sum / (terms.length : α)

/-- Concrete batch exhibiting the `ppl` flattening defect: `[B,T,V] =
[2,3,2]`, and after the shift the first sequence keeps two non-padding
targets with log-probability `0` each while the second keeps one
non-padding target with log-probability `-3` plus one padding position. -/
def pplBugLogits : Tensor3 ℝ :=
  [[[0, -9], [0, -9], [7, 7]], [[-3, -9], [-9, -7], [8, 8]]]

/-- Targets for `pplBugLogits`: the sequences have different non-padding
lengths (2 and 1). -/
def pplBugTargets : Tensor2 :=
  [[9, 0, 0], [9, 0, -1]]

/-! ### Sphere reparameterization (`src/models/ball.py`)

Vectors and matrices are lists over `ℝ`.  `F.normalize(w, p=2, dim=-1)`
divides each row by `max(‖row‖₂, eps)` (the `eps` clamp of the library
call is kept as an explicit parameter). -/

/-- Dot product of two vectors (`F.linear` output coordinate). -/
def dot (u v : List ℝ) : ℝ :=
  ((u.zip v).map (fun p => p.1 * p.2)).sum

/-- Sum of squares of a vector. -/
def sumSq (v : List ℝ) : ℝ :=
  (v.map (fun a => a * a)).sum

/-- L2 norm of a vector. -/
noncomputable def norm2 (v : List ℝ) : ℝ :=
  Real.sqrt (sumSq v)

/-- `F.normalize(v, p=2, dim=-1)`: divide by the norm clamped below by
`eps`. -/
noncomputable def l2normalize (eps : ℝ) (v : List ℝ) : List ℝ :=
  v.map (fun a => a / max (norm2 v) eps)

/-- `ball_forward` from `src/models/ball.py`:
`w = F.normalize(self.weight, p=2, dim=-1); return F.linear(x, w, None)`.
The bias argument of `F.linear` is `None`. -/
noncomputable def ball_forward (eps : ℝ) (W : List (List ℝ)) (x : List ℝ) :
    List ℝ :=
  (W.map (l2normalize eps)).map (fun w => dot x w)

/-- Mean of a vector. -/
noncomputable def listMean (v : List ℝ) : ℝ :=
  v.sum / (v.length : ℝ)

/-- `F.layer_norm(x, shape, weight, bias, eps)` over the last axis. -/
noncomputable def layerNormFn (eps : ℝ) (w b x : List ℝ) : List ℝ :=
  let μ := listMean x
  let σ2 := listMean (x.map (fun a => (a - μ) * (a - μ)))
  ((x.map (fun a => (a - μ) / Real.sqrt (σ2 + eps))).zip (w.zip b)).map
    (fun p => p.1 * p.2.1 + p.2.2)

/-- `layer_forward` from `src/models/ball.py`: unit-normalize the bias,
unit-normalize the weight and rescale it by `sqrt(feature_dim)`, then
apply standard layer normalization. -/
noncomputable def layer_forward (normEps eps : ℝ) (weight bias x : List ℝ) :
    List ℝ :=
  let b := l2normalize normEps bias
  let scale := (l2normalize normEps weight).map (fun a => a * Real.sqrt (x.length : ℝ))
  layerNormFn eps scale b x

/-! ### The `BallLmModel.post_init` patching pass

`post_init` walks `self.modules()` twice: the first loop rewrites the
forward method of every `nn.Linear` without a `no_sim_score` attribute to
`ball_forward` (a linear that has the attribute is left alone, except that
when XLA is available its forward is pointed at the fused
`_xla_patched_nn_linear_forward` fast path); the second loop rewrites the
forward method of every `nn.LayerNorm` to `layer_forward`,
unconditionally.  A module is modelled by its kind, its `no_sim_score`
opt-out marker, its raw parameters, and a tag naming which forward
computation it currently uses. -/

/-- Which forward computation a linear module uses. -/
inductive LinFwd where
  | plain : LinFwd
  | fused : LinFwd
  | ball : LinFwd
deriving DecidableEq, Repr

/-- Which forward computation a normalization module uses. -/
inductive NormFwd where
  | plain : NormFwd
  | ball : NormFwd
deriving DecidableEq, Repr

/-- An `nn.Linear` module: opt-out marker (`no_sim_score`), current
forward tag, raw weight rows, optional bias. -/
structure LinearMod where
  exempt : Bool
  fwd : LinFwd
  weight : List (List ℝ)
  bias : Option (List ℝ)

/-- An `nn.LayerNorm` module: current forward tag, raw weight and bias
vectors, `eps`. -/
structure NormMod where
  exempt : Bool
  fwd : NormFwd
  weight : List ℝ
  bias : List ℝ
  eps : ℝ

/-- A node of the model's module tree. -/
inductive Module where
  | linear (m : LinearMod) : Module
  | norm (m : NormMod) : Module
  | other (id : Nat) : Module

/-- First `post_init` loop, on one `nn.Linear`: an exempt module keeps its
forward (re-routed to the fused fast path when XLA is available); any
other linear gets `ball_forward`. -/
def patchLinear (xla : Bool) (m : LinearMod) : LinearMod :=
  if m.exempt then
    (if xla then { m with fwd := .fused } else m)
  else
    { m with fwd := .ball }

/-- Second `post_init` loop, on one `nn.LayerNorm`: the forward becomes
`layer_forward`, with no exemption check. -/
def patchNorm (m : NormMod) : NormMod :=
  { m with fwd := .ball }

/-- The whole `post_init` pass on one module of the tree. -/
def patchModule (xla : Bool) : Module → Module
  | .linear m => .linear (patchLinear xla m)
  | .norm m => .norm (patchNorm m)
  | .other i => .other i

/-- `BallLmModel.post_init` over the module tree (the call to
`PreTrainedModel.post_init` is external initialization and touches no
forward method). -/
def postInit (xla : Bool) (ms : List Module) : List Module :=
  ms.map (patchModule xla)

/-- `F.linear(x, W, bias)`: affine map, bias added when present. -/
noncomputable def addBias : List ℝ → Option (List ℝ) → List ℝ
  | y, none => y
  | y, some b => (y.zip b).map (fun p => p.1 + p.2)

/-- The forward computation a linear module performs, as selected by its
tag: the plain and fused paths are ordinary affine maps, the ball path is
`ball_forward` (which passes `None` for the bias). -/
noncomputable def runLinear (normEps : ℝ) (m : LinearMod) (x : List ℝ) :
    List ℝ :=
  match m.fwd with
  | .plain => addBias (m.weight.map (fun w => dot x w)) m.bias
  | .fused => addBias (m.weight.map (fun w => dot x w)) m.bias
  | .ball => ball_forward normEps m.weight x

/-- The forward computation a normalization module performs, as selected
by its tag. -/
noncomputable def runNorm (normEps : ℝ) (m : NormMod) (x : List ℝ) :
    List ℝ :=
  match m.fwd with
  | .plain => layerNormFn m.eps m.weight m.bias x
  | .ball => layer_forward normEps m.eps m.weight m.bias x

/-! ### Helper lemmas -/

lemma masked_map_sum (f : α → α) (ig : Int) (l : List (α × Int)) :
    (l.map (fun p => if p.2 == ig then 0 else f p.1)).sum
      = ((l.filter (fun p => !(p.2 == ig))).map (fun p => f p.1)).sum := by
  induction l with
  | nil => rfl
  | cons p l ih =>
    simp only [List.map_cons, List.sum_cons, List.filter_cons, ih]
    cases hb : (p.2 == ig) <;> simp [hb]

lemma gather_length {lf : List (List α)} {xf : List Int} {g : List α}
    (h : gather lf xf = some g) : g.length = xf.length := by
  induction xf generalizing lf g with
  | nil => simp only [gather] at h; cases h; rfl
  | cons t xf ih =>
    cases lf with
    | nil => simp [gather] at h
    | cons row lf =>
      simp only [gather] at h
      cases hp : pyIndex row t with
      | none => rw [hp] at h; simp at h
      | some v =>
        rw [hp] at h
        cases hr : gather lf xf with
        | none => rw [hr] at h; simp at h
        | some rest =>
          rw [hr] at h
          cases h
          simp [ih hr]

lemma gather_forall₂ {lf : List (List α)} {xf : List Int} {g : List α}
    (h : gather lf xf = some g) :
    List.Forall₂ (fun (p : List α × Int) v => pyIndex p.1 p.2 = some v)
      (lf.zip xf) g := by
  induction xf generalizing lf g with
  | nil => simp only [gather] at h; cases h; simp
  | cons t xf ih =>
    cases lf with
    | nil => simp [gather] at h
    | cons row lf =>
      simp only [gather] at h
      cases hp : pyIndex row t with
      | none => rw [hp] at h; simp at h
      | some v =>
        rw [hp] at h
        cases hr : gather lf xf with
        | none => rw [hr] at h; simp at h
        | some rest =>
          rw [hr] at h
          cases h
          exact List.Forall₂.cons hp (ih hr)

lemma gather_isSome_of {lf : List (List α)} {xf : List Int}
    (hlen : xf.length ≤ lf.length)
    (hok : ∀ p ∈ lf.zip xf, (pyIndex p.1 p.2).isSome) :
    ∃ g, gather lf xf = some g := by
  induction xf generalizing lf with
  | nil => exact ⟨[], by cases lf <;> rfl⟩
  | cons t xf ih =>
    cases lf with
    | nil => simp at hlen
    | cons row lf =>
      have h1 : (pyIndex row t).isSome := hok (row, t) (by simp)
      obtain ⟨v, hv⟩ := Option.isSome_iff_exists.mp h1
      obtain ⟨rest, hrest⟩ := ih (Nat.le_of_succ_le_succ hlen)
        (fun p hp => hok p (List.mem_cons_of_mem _ hp))
      exact ⟨v :: rest, by simp only [gather, hv, hrest]⟩

lemma gather_eq_none_of {lf : List (List α)} {xf : List Int}
    (hbad : ∃ p ∈ lf.zip xf, pyIndex p.1 p.2 = none) :
    gather lf xf = none := by
  induction xf generalizing lf with
  | nil => simp at hbad
  | cons t xf ih =>
    cases lf with
    | nil => rfl
    | cons row lf =>
      obtain ⟨p, hp, hnone⟩ := hbad
      rcases List.mem_cons.mp hp with h | h
      · subst h; simp only [gather, hnone]
      · simp only [gather]
        rw [ih ⟨p, h, hnone⟩]
        cases pyIndex row t <;> rfl

lemma pyIndex_isSome_of_valid {row : List α} {t : Int}
    (h0 : 0 ≤ t) (hlt : t < (row.length : Int)) : (pyIndex row t).isSome := by
  simp only [pyIndex, if_pos h0]
  rw [List.getElem?_eq_getElem (show t.toNat < row.length by omega)]
  simp

lemma pyIndex_neg_one {row : List α} (h : 0 < row.length) :
    pyIndex row (-1) = row[row.length - 1]? := by
  have h1 : ¬ (0 : Int) ≤ -1 := by norm_num
  have h2 : -((row.length : Int)) ≤ -1 := by omega
  simp only [pyIndex, if_neg h1, if_pos h2]
  congr 1
  omega

lemma pyIndex_eq_none_of_oob {row : List α} {t : Int}
    (h : (row.length : Int) ≤ t ∨ t < -(row.length : Int)) :
    pyIndex row t = none := by
  rcases h with h | h
  · have h0 : 0 ≤ t := le_trans (Int.ofNat_nonneg _) h
    simp only [pyIndex, if_pos h0]
    rw [List.getElem?_eq_none]
    omega
  · have h0 : ¬ (0 : Int) ≤ t := by omega
    have h1 : ¬ -((row.length : Int)) ≤ t := by omega
    simp only [pyIndex, if_neg h0, if_neg h1]

lemma pyIndex_mem {row : List α} {t : Int} {v : α}
    (h : pyIndex row t = some v) : v ∈ row := by
  simp only [pyIndex] at h
  split at h
  · obtain ⟨hlt, rfl⟩ := List.getElem?_eq_some.mp h
    exact List.getElem_mem hlt
  · split at h
    · obtain ⟨hlt, rfl⟩ := List.getElem?_eq_some.mp h
      exact List.getElem_mem hlt
    · exact absurd h (by simp)

lemma zip_filter_length (ig : Int) {g : List α} {xf : List Int}
    (h : g.length = xf.length) :
    ((g.zip xf).filter (fun p => !(p.2 == ig))).length = nonPadCount xf ig := by
  unfold nonPadCount
  induction xf generalizing g with
  | nil => cases g <;> simp_all
  | cons t xf ih =>
    cases g with
    | nil => simp at h
    | cons v g =>
      simp only [List.length_cons, Nat.succ.injEq] at h
      by_cases ht : t = ig <;>
        simp [List.filter_cons, ht, ih h]

lemma nonPadCount_le (xf : List Int) (ig : Int) :
    nonPadCount xf ig ≤ xf.length :=
  List.length_filter_le _ _

lemma loss_eq_ok {logits : Tensor3 α} {x : Tensor2} {ig : Int} {shift : Bool}
    {g : List α}
    (hg : gather (flatL (shiftLogits shift logits)) (flatT (shiftTargets shift x))
      = some g)
    (hc : nonPadCount (flatT (shiftTargets shift x)) ig ≠ 0) :
    loss logits x ig shift = .ok (lossSpec g (flatT (shiftTargets shift x)) ig) := by
  have hn : (flatT (shiftTargets shift x)).length ≠ 0 :=
    fun h0 => hc (Nat.le_zero.mp (h0 ▸ nonPadCount_le _ ig))
  simp only [loss, hg, if_neg hc]
  rw [masked_map_sum (α := α) (fun a => -a) ig]
  unfold lossSpec
  rw [div_div_div_cancel_right₀
    (show ((flatT (shiftTargets shift x)).length : α) ≠ 0 from Nat.cast_ne_zero.mpr hn)]

lemma ppl_eq_ok (e : α → α) {logits : Tensor3 α} {x : Tensor2} {ig : Int}
    {shift : Bool} {g : List α}
    (hg : gather (flatL (shiftLogits shift logits)) (flatT (shiftTargets shift x))
      = some g)
    (hc : nonPadCount (flatT (shiftTargets shift x)) ig ≠ 0) :
    ppl e logits x ig shift
      = .ok (e (-((((g.zip (flatT (shiftTargets shift x))).filter
            (fun p => !(p.2 == ig))).map (fun p => p.1)).sum
          / (nonPadCount (flatT (shiftTargets shift x)) ig : α)))) := by
  simp only [ppl, hg, if_neg hc]
  rw [masked_map_sum (α := α) (fun a => a) ig]

lemma pcorr_eq_ok (e : α → α) {logits : Tensor3 α} {x : Tensor2} {ig : Int}
    {shift : Bool} {g : List α}
    (hg : gather (flatL (shiftLogits shift logits)) (flatT (shiftTargets shift x))
      = some g)
    (hc : nonPadCount (flatT (shiftTargets shift x)) ig ≠ 0) :
    pcorr e logits x ig shift
      = .ok ((((g.zip (flatT (shiftTargets shift x))).filter
            (fun p => !(p.2 == ig))).map (fun p => e p.1)).sum
          / (nonPadCount (flatT (shiftTargets shift x)) ig : α)) := by
  simp only [pcorr, hg, if_neg hc]
  rw [masked_map_sum (α := α) e ig]

lemma loss_eq_nan {logits : Tensor3 α} {x : Tensor2} {ig : Int} {shift : Bool}
    {g : List α}
    (hg : gather (flatL (shiftLogits shift logits)) (flatT (shiftTargets shift x))
      = some g)
    (hc : nonPadCount (flatT (shiftTargets shift x)) ig = 0) :
    loss logits x ig shift = .error .nan := by
  simp only [loss, hg, if_pos hc]

lemma ppl_eq_nan (e : α → α) {logits : Tensor3 α} {x : Tensor2} {ig : Int}
    {shift : Bool} {g : List α}
    (hg : gather (flatL (shiftLogits shift logits)) (flatT (shiftTargets shift x))
      = some g)
    (hc : nonPadCount (flatT (shiftTargets shift x)) ig = 0) :
    ppl e logits x ig shift = .error .nan := by
  simp only [ppl, hg, if_pos hc]

lemma pcorr_eq_nan (e : α → α) {logits : Tensor3 α} {x : Tensor2} {ig : Int}
    {shift : Bool} {g : List α}
    (hg : gather (flatL (shiftLogits shift logits)) (flatT (shiftTargets shift x))
      = some g)
    (hc : nonPadCount (flatT (shiftTargets shift x)) ig = 0) :
    pcorr e logits x ig shift = .error .nan := by
  simp only [pcorr, hg, if_pos hc]

lemma loss_eq_indexError {logits : Tensor3 α} {x : Tensor2} {ig : Int}
    {shift : Bool}
    (hg : gather (flatL (shiftLogits shift logits)) (flatT (shiftTargets shift x))
      = none) :
    loss logits x ig shift = .error .indexError := by
  simp only [loss, hg]

lemma ppl_eq_indexError (e : α → α) {logits : Tensor3 α} {x : Tensor2} {ig : Int}
    {shift : Bool}
    (hg : gather (flatL (shiftLogits shift logits)) (flatT (shiftTargets shift x))
      = none) :
    ppl e logits x ig shift = .error .indexError := by
  simp only [ppl, hg]

lemma pcorr_eq_indexError (e : α → α) {logits : Tensor3 α} {x : Tensor2}
    {ig : Int} {shift : Bool}
    (hg : gather (flatL (shiftLogits shift logits)) (flatT (shiftTargets shift x))
      = none) :
    pcorr e logits x ig shift = .error .indexError := by
  simp only [pcorr, hg]

lemma loss_ne_indexError {logits : Tensor3 α} {x : Tensor2} {ig : Int}
    {shift : Bool} {g : List α}
    (hg : gather (flatL (shiftLogits shift logits)) (flatT (shiftTargets shift x))
      = some g) :
    loss logits x ig shift ≠ .error .indexError := by
  by_cases hc : nonPadCount (flatT (shiftTargets shift x)) ig = 0
  · rw [loss_eq_nan hg hc]; simp
  · rw [loss_eq_ok hg hc]; simp

lemma ppl_ne_indexError (e : α → α) {logits : Tensor3 α} {x : Tensor2} {ig : Int}
    {shift : Bool} {g : List α}
    (hg : gather (flatL (shiftLogits shift logits)) (flatT (shiftTargets shift x))
      = some g) :
    ppl e logits x ig shift ≠ .error .indexError := by
  by_cases hc : nonPadCount (flatT (shiftTargets shift x)) ig = 0
  · rw [ppl_eq_nan e hg hc]; simp
  · rw [ppl_eq_ok e hg hc]; simp

lemma pcorr_ne_indexError (e : α → α) {logits : Tensor3 α} {x : Tensor2}
    {ig : Int} {shift : Bool} {g : List α}
    (hg : gather (flatL (shiftLogits shift logits)) (flatT (shiftTargets shift x))
      = some g) :
    pcorr e logits x ig shift ≠ .error .indexError := by
  by_cases hc : nonPadCount (flatT (shiftTargets shift x)) ig = 0
  · rw [pcorr_eq_nan e hg hc]; simp
  · rw [pcorr_eq_ok e hg hc]; simp

lemma acc_eq_nameError (logits : Tensor3 α) (x : Tensor2) (ig : Int)
    (shift : Bool) : acc logits x ig shift = .error .nameError :=
  rfl

lemma exists_zip_pair {lf : List (List α)} {xf : List Int} {t : Int}
    (hlen : xf.length ≤ lf.length) (ht : t ∈ xf) :
    ∃ row, (row, t) ∈ lf.zip xf := by
  induction xf generalizing lf with
  | nil => simp at ht
  | cons t0 xf ih =>
    cases lf with
    | nil => simp at hlen
    | cons row lf =>
      rcases List.mem_cons.mp ht with h | h
      · exact ⟨row, by simp [h]⟩
      · obtain ⟨r, hr⟩ := ih (Nat.le_of_succ_le_succ hlen) h
        exact ⟨r, List.mem_cons_of_mem _ hr⟩

lemma forall₂_mem_right {R : (List α × Int) → α → Prop} :
    ∀ {l₁ : List (List α × Int)} {l₂ : List α}, List.Forall₂ R l₁ l₂ →
      ∀ b ∈ l₂, ∃ a ∈ l₁, R a b := by
  intro l₁ l₂ h
  induction h with
  | nil => simp
  | cons hr _ ih =>
    intro b hb
    rcases List.mem_cons.mp hb with h | h
    · exact ⟨_, List.mem_cons_self _ _, h ▸ hr⟩
    · obtain ⟨a, ha, hab⟩ := ih b h
      exact ⟨a, List.mem_cons_of_mem _ ha, hab⟩

lemma mem_flatL_shift {row : List α} {logits : Tensor3 α}
    (h : row ∈ flatL (shiftLogits true logits)) :
    ∃ seq ∈ logits, row ∈ seq := by
  simp only [flatL, shiftLogits, if_pos] at h
  obtain ⟨l, hl, hrow⟩ := List.mem_flatten.mp h
  obtain ⟨seq, hseq, rfl⟩ := List.mem_map.mp hl
  exact ⟨seq, hseq, (List.dropLast_sublist seq).subset hrow⟩

/-! ### Claim theorems: the metrics engine -/

/-- C1: `loss(logp, targets, ignore_index=-1, shift=True)` equals the
negative gathered log-probability with padding positions zeroed, averaged
as a single flat mean over all non-padding token positions of the whole
batch (the source's division of one flat mean by another collapses to
`lossSpec`, the spec's single flat mean); the shift drops the last
timestep of the logits and the first timestep of the targets. -/
theorem C1_loss_flat_global_mean (logits : Tensor3 α) (x : Tensor2)
    (g : List α)
    (hg : gather (flatL (shiftLogits true logits)) (flatT (shiftTargets true x))
      = some g)
    (hc : nonPadCount (flatT (shiftTargets true x)) (-1) ≠ 0) :
    loss logits x (-1) true
      = .ok (lossSpec g (flatT (shiftTargets true x)) (-1)) :=
  loss_eq_ok hg hc

/-- Witness for C1 at a concrete batch: `[B,T,V] = [1,2,2]`, target id `1`
survives the shift, and `loss` evaluates to the flat mean `-2`. -/
theorem C1_loss_flat_global_mean_witness :
    gather (flatL (shiftLogits true [[[(1 : ℚ), 2], [0, 0]]]))
        (flatT (shiftTargets true [[0, 1]])) = some [2] ∧
    nonPadCount (flatT (shiftTargets true [[0, 1]])) (-1) ≠ 0 ∧
    loss [[[(1 : ℚ), 2], [0, 0]]] [[0, 1]] (-1) true
      = .ok (lossSpec [2] (flatT (shiftTargets true [[0, 1]])) (-1)) :=
  ⟨by decide, by decide,
    C1_loss_flat_global_mean [[[(1 : ℚ), 2], [0, 0]]] [[0, 1]] [2]
      (by decide) (by decide)⟩

/-- C3: the claim says `acc` returns the fraction of non-padding positions
whose argmax matches the target; the code instead reads `mask` before the
line that assigns it, so every call of `acc` raises a `NameError`
(`UnboundLocalError`) — here evaluated on the spec's own concrete scenario
`targets = [[5, 7, -1]]` and, generally, on every input. -/
theorem C3_acc_raises_name_error :
    acc (α := ℚ) [[[0, 1], [1, 0], [0, 0]]] [[5, 7, -1]] (-1) true
        = .error .nameError ∧
    ∀ (logits : Tensor3 ℚ) (x : Tensor2) (ig : Int) (shift : Bool),
      acc logits x ig shift = .error .nameError :=
  ⟨rfl, fun _ _ _ _ => rfl⟩

/-- C6: with every position of the batch padding, the mask covers all
targets, the masked numerator is zero and the non-padding denominator is
zero, so the source's `loss.mean() / (~mask).float().mean()` is the IEEE
division `0.0 / 0.0`: `loss` silently produces NaN instead of the defined
non-NaN value the claim requires. -/
theorem C6_all_padding_is_nan (logits : Tensor3 α) (x : Tensor2) (g : List α)
    (hg : gather (flatL (shiftLogits true logits)) (flatT (shiftTargets true x))
      = some g)
    (hall : nonPadCount (flatT (shiftTargets true x)) (-1) = 0) :
    loss logits x (-1) true = .error .nan :=
  loss_eq_nan hg hall

/-- Witness for C6: a batch of one all-padding sequence, `targets =
[[-1, -1]]`, makes `loss` evaluate to NaN. -/
theorem C6_all_padding_is_nan_witness :
    gather (flatL (shiftLogits true [[[(0 : ℚ)], [0]]]))
        (flatT (shiftTargets true [[-1, -1]])) = some [0] ∧
    nonPadCount (flatT (shiftTargets true [[-1, -1]])) (-1) = 0 ∧
    loss [[[(0 : ℚ)], [0]]] [[-1, -1]] (-1) true = .error .nan :=
  ⟨by decide, by decide,
    C6_all_padding_is_nan [[[(0 : ℚ)], [0]]] [[-1, -1]] [0]
      (by decide) (by decide)⟩

/-- C7 counterexample: the claim says any target id outside
`[0, V) ∪ {-1}` makes each metric fail with `IndexError`; but the gather
wraps negative indices, so with `V = 2` the id `-2` (outside
`[0, 2) ∪ {-1}`) selects column `0` and `loss` returns the plain value
`-1` instead of failing. -/
theorem C7_wraparound_counterexample :
    loss (α := ℚ) [[[1, 2], [9, 9]]] [[7, -2]] (-1) true = .ok (-1) ∧
    loss (α := ℚ) [[[1, 2], [9, 9]]] [[7, -2]] (-1) true
      ≠ .error .indexError := by
  have hg : gather (flatL (shiftLogits true [[[(1 : ℚ), 2], [9, 9]]]))
      (flatT (shiftTargets true [[7, -2]])) = some [1] := by decide
  have hc : nonPadCount (flatT (shiftTargets true [[7, -2]])) (-1) ≠ 0 := by
    decide
  have h := loss_eq_ok hg hc
  rw [h]
  refine ⟨?_, by simp⟩
  congr 1
  norm_num [lossSpec, nonPadCount, flatT, shiftTargets]

/-- C7 (amended): a post-shift target id at or above `V`, or strictly
below `-V`, makes the gather raise `IndexError` in `loss`, `ppl` and
`pcorr` (ids in `[-V, -1)` instead wrap around silently, see the
counterexample), while `acc` raises `NameError` on every input because of
its mask-ordering defect, never `IndexError`. -/
theorem C7_out_of_range_index_error (e : α → α) (V : Nat)
    (logits : Tensor3 α) (x : Tensor2)
    (hrows : ∀ row ∈ flatL (shiftLogits true logits), row.length = V)
    (hlen : (flatT (shiftTargets true x)).length
      ≤ (flatL (shiftLogits true logits)).length)
    (hbad : ∃ t ∈ flatT (shiftTargets true x), (V : Int) ≤ t ∨ t < -(V : Int)) :
    loss logits x (-1) true = .error .indexError ∧
    ppl e logits x (-1) true = .error .indexError ∧
    pcorr e logits x (-1) true = .error .indexError ∧
    acc logits x (-1) true = .error .nameError := by
  obtain ⟨t, ht, hoob⟩ := hbad
  obtain ⟨row, hp⟩ := exists_zip_pair hlen ht
  have hrow : row ∈ flatL (shiftLogits true logits) := (List.of_mem_zip hp).1
  have hnone : pyIndex row t = none := by
    apply pyIndex_eq_none_of_oob
    rw [hrows row hrow]
    exact hoob
  have hg : gather (flatL (shiftLogits true logits))
      (flatT (shiftTargets true x)) = none :=
    gather_eq_none_of ⟨(row, t), hp, hnone⟩
  exact ⟨loss_eq_indexError hg, ppl_eq_indexError e hg,
    pcorr_eq_indexError e hg, acc_eq_nameError _ _ _ _⟩

/-- Witness for C7 (amended): id `5` with `V = 2` raises `IndexError` in
the gather-based metrics and `NameError` in `acc`. -/
theorem C7_out_of_range_index_error_witness :
    (∀ row ∈ flatL (shiftLogits true [[[(1 : ℚ), 2], [9, 9]]]), row.length = 2) ∧
    (flatT (shiftTargets true [[7, 5]])).length
      ≤ (flatL (shiftLogits true [[[(1 : ℚ), 2], [9, 9]]])).length ∧
    (∃ t ∈ flatT (shiftTargets true [[7, 5]]), (2 : Int) ≤ t ∨ t < -(2 : Int)) ∧
    (loss [[[(1 : ℚ), 2], [9, 9]]] [[7, 5]] (-1) true = .error .indexError ∧
      ppl (fun v => v) [[[(1 : ℚ), 2], [9, 9]]] [[7, 5]] (-1) true
        = .error .indexError ∧
      pcorr (fun v => v) [[[(1 : ℚ), 2], [9, 9]]] [[7, 5]] (-1) true
        = .error .indexError ∧
      acc [[[(1 : ℚ), 2], [9, 9]]] [[7, 5]] (-1) true = .error .nameError) :=
  ⟨by decide, by decide, by decide,
    C7_out_of_range_index_error (fun v => v) 2 [[[(1 : ℚ), 2], [9, 9]]]
      [[7, 5]] (by decide) (by decide) (by decide)⟩

/-- C10: when the targets mix the sentinel `-1` with valid ids in
`[0, V)`, the gather does not fail: the sentinel wraps to the last
vocabulary column (`row[V-1]`), the value gathered there is zeroed by the
mask so the numerator only sums non-sentinel positions, and `loss`, `ppl`
and `pcorr` never return `IndexError` on such a batch. -/
theorem C10_sentinel_wraps_and_is_masked (e : α → α) (V : Nat)
    (logits : Tensor3 α) (x : Tensor2) (hV : 0 < V)
    (hrows : ∀ row ∈ flatL (shiftLogits true logits), row.length = V)
    (hlen : (flatT (shiftTargets true x)).length
      ≤ (flatL (shiftLogits true logits)).length)
    (hids : ∀ t ∈ flatT (shiftTargets true x), t = -1 ∨ (0 ≤ t ∧ t < (V : Int))) :
    ∃ g, gather (flatL (shiftLogits true logits)) (flatT (shiftTargets true x))
        = some g ∧
      List.Forall₂
        (fun (p : List α × Int) v => p.1.length = V → p.2 = -1 → p.1[V - 1]? = some v)
        ((flatL (shiftLogits true logits)).zip (flatT (shiftTargets true x))) g ∧
      ((g.zip (flatT (shiftTargets true x))).map
          (fun p => if p.2 == -1 then 0 else -p.1)).sum
        = (((g.zip (flatT (shiftTargets true x))).filter
            (fun p => !(p.2 == -1))).map (fun p => -p.1)).sum ∧
      loss logits x (-1) true ≠ .error .indexError ∧
      ppl e logits x (-1) true ≠ .error .indexError ∧
      pcorr e logits x (-1) true ≠ .error .indexError := by
  have hok : ∀ p ∈ (flatL (shiftLogits true logits)).zip
      (flatT (shiftTargets true x)), (pyIndex p.1 p.2).isSome := by
    rintro ⟨row, t⟩ hp
    dsimp only
    have hrow : row.length = V := hrows row (List.of_mem_zip hp).1
    rcases hids t (List.of_mem_zip hp).2 with h | ⟨h0, hlt⟩
    · subst h
      rw [pyIndex_neg_one (by omega)]
      rw [List.getElem?_eq_getElem (by omega)]
      simp
    · exact pyIndex_isSome_of_valid h0 (by omega)
  obtain ⟨g, hg⟩ := gather_isSome_of hlen hok
  refine ⟨g, hg, ?_, ?_, loss_ne_indexError hg, ppl_ne_indexError e hg,
    pcorr_ne_indexError e hg⟩
  · exact (gather_forall₂ hg).imp (fun p v hpv hlenV hneg => by
      rw [← hpv, hneg, pyIndex_neg_one (by omega), hlenV])
  · exact masked_map_sum (α := α) (fun a => -a) (-1) _

/-- Witness for C10 at `V = 2`, `targets = [[9, 0, -1]]`: the surviving
targets `[0, -1]` gather `[1, 4]`, the sentinel picking the last column. -/
theorem C10_sentinel_wraps_and_is_masked_witness :
    (0 : Nat) < 2 ∧
    (∀ row ∈ flatL (shiftLogits true [[[(1 : ℚ), 2], [3, 4], [5, 6]]]),
      row.length = 2) ∧
    (flatT (shiftTargets true [[9, 0, -1]])).length
      ≤ (flatL (shiftLogits true [[[(1 : ℚ), 2], [3, 4], [5, 6]]])).length ∧
    (∀ t ∈ flatT (shiftTargets true [[9, 0, -1]]),
      t = -1 ∨ (0 ≤ t ∧ t < (2 : Int))) ∧
    (∃ g, gather (flatL (shiftLogits true [[[(1 : ℚ), 2], [3, 4], [5, 6]]]))
        (flatT (shiftTargets true [[9, 0, -1]])) = some g ∧
      List.Forall₂
        (fun (p : List ℚ × Int) v => p.1.length = 2 → p.2 = -1 → p.1[2 - 1]? = some v)
        ((flatL (shiftLogits true [[[(1 : ℚ), 2], [3, 4], [5, 6]]])).zip
          (flatT (shiftTargets true [[9, 0, -1]]))) g ∧
      ((g.zip (flatT (shiftTargets true [[9, 0, -1]]))).map
          (fun p => if p.2 == -1 then 0 else -p.1)).sum
        = (((g.zip (flatT (shiftTargets true [[9, 0, -1]]))).filter
            (fun p => !(p.2 == -1))).map (fun p => -p.1)).sum ∧
      loss [[[(1 : ℚ), 2], [3, 4], [5, 6]]] [[9, 0, -1]] (-1) true
        ≠ .error .indexError ∧
      ppl (fun v => v) [[[(1 : ℚ), 2], [3, 4], [5, 6]]] [[9, 0, -1]] (-1) true
        ≠ .error .indexError ∧
      pcorr (fun v => v) [[[(1 : ℚ), 2], [3, 4], [5, 6]]] [[9, 0, -1]] (-1) true
        ≠ .error .indexError) :=
  ⟨by decide, by decide, by decide, by decide,
    C10_sentinel_wraps_and_is_masked (fun v => v) 2
      [[[(1 : ℚ), 2], [3, 4], [5, 6]]] [[9, 0, -1]]
      (by decide) (by decide) (by decide) (by decide)⟩

/-- C2: the claim says `ppl` is the per-sequence mean negative
log-probability exponentiated per sequence then averaged, and in
particular differs from `exp(loss)` when sequence lengths vary.  The code
flattens the batch axis (`x.view(-1)`) before its "per-sequence" sum, so
on this batch with lengths 2 and 1 it returns exactly `exp(loss) =
exp 1`, while the per-sequence formula of the spec gives
`(1 + exp 3) / 2`, a different number. -/
theorem C2_ppl_flattening_defect :
    loss pplBugLogits pplBugTargets (-1) true = .ok 1 ∧
    ppl Real.exp pplBugLogits pplBugTargets (-1) true = .ok (Real.exp 1) ∧
    pplSpec Real.exp pplBugLogits pplBugTargets (-1) = (1 + Real.exp 3) / 2 ∧
    Real.exp 1 ≠ (1 + Real.exp 3) / 2 := by
  have hg : gather (flatL (shiftLogits true pplBugLogits))
      (flatT (shiftTargets true pplBugTargets)) = some [0, 0, -3, -7] := by
    rfl
  have hc : nonPadCount (flatT (shiftTargets true pplBugTargets)) (-1) ≠ 0 := by
    decide
  refine ⟨?_, ?_, ?_, ?_⟩
  · rw [loss_eq_ok hg hc]
    congr 1
    norm_num [lossSpec, nonPadCount, flatT, shiftTargets, pplBugTargets]
  · rw [ppl_eq_ok Real.exp hg hc]
    congr 2
    norm_num [nonPadCount, flatT, shiftTargets, pplBugTargets]
  · have h : pplSpec Real.exp pplBugLogits pplBugTargets (-1)
        = ([Real.exp (-(([(0 : ℝ), 0].sum) / ((2 : ℕ) : ℝ))),
            Real.exp (-(([(-3 : ℝ)].sum) / ((1 : ℕ) : ℝ)))].sum) / ((2 : ℕ) : ℝ) :=
      rfl
    rw [h]
    norm_num [Real.exp_zero]
  · intro heq
    have h1 := Real.exp_one_lt_d9
    have h2 := Real.exp_one_gt_d9
    have h3 : Real.exp 3 = Real.exp 1 * Real.exp 1 * Real.exp 1 := by
      rw [show (3 : ℝ) = 1 + 1 + 1 by norm_num, Real.exp_add, Real.exp_add]
    have he : (2 : ℝ) < Real.exp 1 := by linarith
    have h8 : (8 : ℝ) < Real.exp 3 := by
      rw [h3]; nlinarith [he]
    rw [heq] at h1
    linarith

/-- C4: with `logp` log-normalized along the vocabulary axis, `pcorr`
returns the mean over non-padding positions of the gathered probability
`exp(logp[b,t,targets[b,t]])`, and that mean lies in `[0, 1]`. -/
theorem C4_pcorr_mean_gathered_prob (logits : Tensor3 ℝ) (x : Tensor2)
    (g : List ℝ)
    (hnorm : ∀ seq ∈ logits, ∀ row ∈ seq, (row.map Real.exp).sum = 1)
    (hg : gather (flatL (shiftLogits true logits)) (flatT (shiftTargets true x))
      = some g)
    (hc : nonPadCount (flatT (shiftTargets true x)) (-1) ≠ 0) :
    ∃ m, pcorr Real.exp logits x (-1) true = .ok m ∧
      m = (((g.zip (flatT (shiftTargets true x))).filter
            (fun p => !(p.2 == -1))).map (fun p => Real.exp p.1)).sum
          / (nonPadCount (flatT (shiftTargets true x)) (-1) : ℝ) ∧
      0 ≤ m ∧ m ≤ 1 := by
  have hexp_le : ∀ v ∈ g, Real.exp v ≤ 1 := by
    intro v hv
    obtain ⟨p, hp, hpv⟩ := forall₂_mem_right (gather_forall₂ hg) v hv
    have hvrow : v ∈ p.1 := pyIndex_mem hpv
    obtain ⟨seq, hseq, hrow⟩ := mem_flatL_shift (List.of_mem_zip hp).1
    have hsum : (p.1.map Real.exp).sum = 1 := hnorm seq hseq p.1 hrow
    have := List.single_le_sum
      (fun a ha => ?_) (Real.exp v) (List.mem_map_of_mem Real.exp hvrow)
    · rw [hsum] at this; exact this
    · obtain ⟨b, _, rfl⟩ := List.mem_map.mp ha
      exact (Real.exp_pos b).le
  set xf := flatT (shiftTargets true x) with hxf
  set fl := ((g.zip xf).filter (fun p => !(p.2 == -1))).map
    (fun p => Real.exp p.1) with hfl
  have hmem : ∀ a ∈ fl, 0 ≤ a ∧ a ≤ 1 := by
    intro a ha
    obtain ⟨p, hpmem, rfl⟩ := List.mem_map.mp ha
    have hpg : p.1 ∈ g := (List.of_mem_zip (List.mem_of_mem_filter hpmem)).1
    exact ⟨(Real.exp_pos p.1).le, hexp_le p.1 hpg⟩
  have hsum0 : 0 ≤ fl.sum := List.sum_nonneg (fun a ha => (hmem a ha).1)
  have hlenfl : fl.length = nonPadCount xf (-1) := by
    rw [hfl, List.length_map]
    exact zip_filter_length (-1) (gather_length hg)
  have hsum1 : fl.sum ≤ (nonPadCount xf (-1) : ℝ) := by
    have := List.sum_le_card_nsmul fl 1 (fun a ha => (hmem a ha).2)
    rwa [hlenfl, nsmul_eq_mul, mul_one] at this
  have hcpos : (0 : ℝ) < (nonPadCount xf (-1) : ℝ) := by
    exact_mod_cast Nat.pos_of_ne_zero hc
  refine ⟨fl.sum / (nonPadCount xf (-1) : ℝ), ?_, rfl, ?_, ?_⟩
  · rw [pcorr_eq_ok Real.exp hg hc]
  · exact div_nonneg hsum0 hcpos.le
  · rw [div_le_one hcpos]; exact hsum1

/-- Witness for C4 at `V = 1`, `logp = 0` everywhere (probability one),
`targets = [[0, 0]]`: the mean gathered probability is `1`. -/
theorem C4_pcorr_mean_gathered_prob_witness :
    (∀ seq ∈ ([[[0], [0]]] : Tensor3 ℝ), ∀ row ∈ seq,
      (row.map Real.exp).sum = 1) ∧
    gather (flatL (shiftLogits true ([[[0], [0]]] : Tensor3 ℝ)))
      (flatT (shiftTargets true [[0, 0]])) = some [0] ∧
    nonPadCount (flatT (shiftTargets true [[0, 0]])) (-1) ≠ 0 ∧
    (∃ m, pcorr Real.exp ([[[0], [0]]] : Tensor3 ℝ) [[0, 0]] (-1) true
        = .ok m ∧
      m = ((([0].zip (flatT (shiftTargets true [[0, 0]]))).filter
            (fun p => !(p.2 == -1))).map (fun p => Real.exp p.1)).sum
          / (nonPadCount (flatT (shiftTargets true [[0, 0]])) (-1) : ℝ) ∧
      0 ≤ m ∧ m ≤ 1) :=
  ⟨by simp [Real.exp_zero], by rfl, by decide,
    C4_pcorr_mean_gathered_prob [[[0], [0]]] [[0, 0]] [0]
      (by simp [Real.exp_zero]) (by rfl) (by decide)⟩

/-! ### Lemmas and claims for the sphere reparameterization -/

lemma sumSq_nonneg (v : List ℝ) : 0 ≤ sumSq v := by
  apply List.sum_nonneg
  intro a ha
  obtain ⟨b, _, rfl⟩ := List.mem_map.mp ha
  exact mul_self_nonneg b

lemma norm2_nonneg (v : List ℝ) : 0 ≤ norm2 v :=
  Real.sqrt_nonneg _

lemma sumSq_map_mul (c : ℝ) (v : List ℝ) :
    sumSq (v.map (fun a => c * a)) = sumSq v * (c * c) := by
  unfold sumSq
  rw [List.map_map]
  have h : ((fun a => a * a) ∘ fun a : ℝ => c * a)
      = fun a : ℝ => (a * a) * (c * c) := by
    funext a; simp [Function.comp]; ring
  rw [h]
  exact List.sum_map_mul_right v (fun a => a * a) (c * c)

lemma norm2_map_mul {c : ℝ} (hc : 0 ≤ c) (v : List ℝ) :
    norm2 (v.map (fun a => c * a)) = c * norm2 v := by
  unfold norm2
  rw [sumSq_map_mul, mul_comm, Real.sqrt_mul (mul_self_nonneg c),
    Real.sqrt_mul_self hc]

lemma norm2_map_div {s : ℝ} (hs : 0 < s) (v : List ℝ) :
    norm2 (v.map (fun a => a / s)) = norm2 v / s := by
  have h : (v.map fun a => a / s) = v.map (fun a => s⁻¹ * a) := by
    apply List.map_congr_left
    intro a _
    rw [div_eq_mul_inv, mul_comm]
  rw [h, norm2_map_mul (inv_nonneg.mpr hs.le), inv_mul_eq_div]

lemma norm2_l2normalize {eps : ℝ} {v : List ℝ} (h0 : 0 < norm2 v)
    (he : eps ≤ norm2 v) : norm2 (l2normalize eps v) = 1 := by
  unfold l2normalize
  rw [max_eq_left he, norm2_map_div h0]
  exact div_self h0.ne'

lemma l2normalize_map_mul {eps c : ℝ} {v : List ℝ} (hc : 0 < c)
    (h0 : 0 < norm2 v) (he : eps ≤ norm2 v) (hce : eps ≤ c * norm2 v) :
    l2normalize eps (v.map (fun a => c * a)) = l2normalize eps v := by
  unfold l2normalize
  rw [norm2_map_mul hc.le, max_eq_left hce, max_eq_left he, List.map_map]
  apply List.map_congr_left
  intro a _
  show (c * a) / (c * norm2 v) = a / norm2 v
  exact mul_div_mul_left a (norm2 v) hc.ne'

/-- C5: a sphere-reparameterized linear module computes
`input · normalize(W, last_dim)ᵗ`: the output is the dot of the input with
each row-normalized weight row; any bias stored on the module is dropped;
every effective row has L2 norm 1; and scaling the raw weight rows by any
positive constant `c` (with the norms staying at or above the `eps` clamp)
leaves the output unchanged. -/
theorem C5_ball_forward_unit_rows (eps c : ℝ) (ex : Bool)
    (W : List (List ℝ)) (b : Option (List ℝ)) (xv : List ℝ)
    (hc : 0 < c)
    (hrow : ∀ row ∈ W, 0 < norm2 row ∧ eps ≤ norm2 row)
    (hcrow : ∀ row ∈ W, eps ≤ c * norm2 row) :
    runLinear eps ⟨ex, .ball, W, b⟩ xv
        = W.map (fun row => dot xv (l2normalize eps row)) ∧
    runLinear eps ⟨ex, .ball, W, b⟩ xv = runLinear eps ⟨ex, .ball, W, none⟩ xv ∧
    (∀ row ∈ W, norm2 (l2normalize eps row) = 1) ∧
    runLinear eps ⟨ex, .ball, W.map (fun row => row.map (fun a => c * a)), b⟩ xv
        = runLinear eps ⟨ex, .ball, W, b⟩ xv := by
  refine ⟨?_, rfl, ?_, ?_⟩
  · show ball_forward eps W xv = _
    unfold ball_forward
    rw [List.map_map]
    rfl
  · intro row hr
    exact norm2_l2normalize (hrow row hr).1 (hrow row hr).2
  · show ball_forward eps (W.map (fun row => row.map (fun a => c * a))) xv
      = ball_forward eps W xv
    unfold ball_forward
    rw [List.map_map, List.map_map, List.map_map]
    apply List.map_congr_left
    intro row hr
    show dot xv (l2normalize eps (row.map (fun a => c * a)))
      = dot xv (l2normalize eps row)
    rw [l2normalize_map_mul hc (hrow row hr).1 (hrow row hr).2 (hcrow row hr)]

/-- Witness for C5 at `W = [[3, 4]]` (row norm 5), `eps = 0`, `c = 2`,
input `[1, 2]`, bias `[7]` present but dropped. -/
theorem C5_ball_forward_unit_rows_witness :
    (0 : ℝ) < 2 ∧
    (∀ row ∈ [[(3 : ℝ), 4]], 0 < norm2 row ∧ (0 : ℝ) ≤ norm2 row) ∧
    (∀ row ∈ [[(3 : ℝ), 4]], (0 : ℝ) ≤ 2 * norm2 row) ∧
    (runLinear 0 ⟨true, .ball, [[(3 : ℝ), 4]], some [7]⟩ [1, 2]
        = [[(3 : ℝ), 4]].map (fun row => dot [1, 2] (l2normalize 0 row)) ∧
      runLinear 0 ⟨true, .ball, [[(3 : ℝ), 4]], some [7]⟩ [1, 2]
        = runLinear 0 ⟨true, .ball, [[(3 : ℝ), 4]], none⟩ [1, 2] ∧
      (∀ row ∈ [[(3 : ℝ), 4]], norm2 (l2normalize 0 row) = 1) ∧
      runLinear 0
          ⟨true, .ball, [[(3 : ℝ), 4]].map (fun row => row.map (fun a => 2 * a)),
            some [7]⟩ [1, 2]
        = runLinear 0 ⟨true, .ball, [[(3 : ℝ), 4]], some [7]⟩ [1, 2]) := by
  have h34 : norm2 [(3 : ℝ), 4] = 5 := by
    have hs : sumSq [(3 : ℝ), 4] = 25 := by
      norm_num [sumSq]
    rw [norm2, hs, show (25 : ℝ) = 5 ^ 2 by norm_num,
      Real.sqrt_sq (by norm_num : (0 : ℝ) ≤ 5)]
  have hrow : ∀ row ∈ [[(3 : ℝ), 4]], 0 < norm2 row ∧ (0 : ℝ) ≤ norm2 row := by
    intro row hr
    rw [List.mem_singleton.mp hr, h34]
    norm_num
  have hcrow : ∀ row ∈ [[(3 : ℝ), 4]], (0 : ℝ) ≤ 2 * norm2 row := by
    intro row hr
    rw [List.mem_singleton.mp hr, h34]
    norm_num
  exact ⟨by norm_num, hrow, hcrow,
    C5_ball_forward_unit_rows 0 2 true [[(3 : ℝ), 4]] (some [7]) [1, 2]
      (by norm_num) hrow hcrow⟩

/-- C8 counterexample: an `nn.LayerNorm` carrying the `no_sim_score`
opt-out marker is still rewritten by the pass — the second `post_init`
loop patches every `nn.LayerNorm` with no exemption check — refuting the
claim that every exempt matching module is left untouched. -/
theorem C8_exempt_norm_still_patched :
    patchModule false (.norm ⟨true, .plain, [1], [0], 0⟩)
      ≠ .norm ⟨true, .plain, [1], [0], 0⟩ := by
  simp [patchModule, patchNorm]

/-- C8 (amended): the opt-out flag is honored only for dense/linear
modules — an exempt linear is left untouched when no fused path exists and
is routed to the fused fast path when XLA is available, and every
non-exempt linear is rewritten to `ball_forward` — while normalization
layers are rewritten unconditionally, exempt or not; other modules are
untouched. -/
theorem C8_patch_exemption_linear_only (xla : Bool) (lm : LinearMod)
    (nm : NormMod) :
    (lm.exempt = true → xla = false →
      patchModule xla (.linear lm) = .linear lm) ∧
    (lm.exempt = true → xla = true →
      patchModule xla (.linear lm) = .linear { lm with fwd := .fused }) ∧
    (lm.exempt = false →
      patchModule xla (.linear lm) = .linear { lm with fwd := .ball }) ∧
    patchModule xla (.norm nm) = .norm { nm with fwd := .ball } ∧
    (∀ i, patchModule xla (.other i) = .other i) := by
  refine ⟨?_, ?_, ?_, rfl, fun i => rfl⟩
  · intro hex hx
    simp [patchModule, patchLinear, hex, hx]
  · intro hex hx
    simp [patchModule, patchLinear, hex, hx]
  · intro hex
    simp [patchModule, patchLinear, hex]

/-- Witness for C8 (amended), exercising all three linear cases and the
normalization case on concrete modules. -/
theorem C8_patch_exemption_linear_only_witness :
    patchModule false (.linear ⟨true, .plain, [[1]], none⟩)
      = .linear ⟨true, .plain, [[1]], none⟩ ∧
    patchModule true (.linear ⟨true, .plain, [[1]], none⟩)
      = .linear ⟨true, .fused, [[1]], none⟩ ∧
    patchModule false (.linear ⟨false, .plain, [[1]], none⟩)
      = .linear ⟨false, .ball, [[1]], none⟩ ∧
    patchModule false (.norm ⟨false, .plain, [1], [0], 0⟩)
      = .norm ⟨false, .ball, [1], [0], 0⟩ :=
  ⟨(C8_patch_exemption_linear_only false ⟨true, .plain, [[1]], none⟩
      ⟨false, .plain, [1], [0], 0⟩).1 rfl rfl,
    (C8_patch_exemption_linear_only true ⟨true, .plain, [[1]], none⟩
      ⟨false, .plain, [1], [0], 0⟩).2.1 rfl rfl,
    (C8_patch_exemption_linear_only false ⟨false, .plain, [[1]], none⟩
      ⟨false, .plain, [1], [0], 0⟩).2.2.1 rfl,
    (C8_patch_exemption_linear_only false ⟨false, .plain, [[1]], none⟩
      ⟨false, .plain, [1], [0], 0⟩).2.2.2.1⟩

/-- C9: the `post_init` pass is idempotent — applying it twice yields the
same module tree as applying it once, and the forward computation each
patched module performs (for every raw parameter value, `eps` and input)
is unchanged by the second application: effective weights are never
normalized twice, because the pass only redirects the forward method while
the raw parameters stay untouched. -/
theorem C9_post_init_idempotent :
    ∀ (xla : Bool) (ms : List Module),
      postInit xla (postInit xla ms) = postInit xla ms ∧
      (∀ (lm : LinearMod) (normEps : ℝ) (xv : List ℝ),
        runLinear normEps (patchLinear xla (patchLinear xla lm)) xv
          = runLinear normEps (patchLinear xla lm) xv ∧
        (patchLinear xla (patchLinear xla lm)).weight
          = (patchLinear xla lm).weight) ∧
      (∀ (nm : NormMod) (normEps : ℝ) (xv : List ℝ),
        runNorm normEps (patchNorm (patchNorm nm)) xv
          = runNorm normEps (patchNorm nm) xv) := by
  intro xla ms
  have hlin : ∀ lm, patchLinear xla (patchLinear xla lm) = patchLinear xla lm := by
    intro lm
    unfold patchLinear
    cases hex : lm.exempt <;> cases xla <;> simp [hex]
  have hmod : ∀ m, patchModule xla (patchModule xla m) = patchModule xla m := by
    intro m
    cases m with
    | linear lm => simp only [patchModule, hlin]
    | norm nm => rfl
    | other i => rfl
  refine ⟨?_, ?_, fun nm normEps xv => rfl⟩
  · unfold postInit
    rw [List.map_map]
    exact List.map_congr_left (fun m _ => hmod m)
  · intro lm normEps xv
    rw [hlin lm]
    exact ⟨rfl, rfl⟩

end StableHypergrad
